import Mathlib

/-!
# wm3D: voxel indexing of the TSDF volume and the file helpers of `Utils`

Shallow embedding of

* `TSDFVolumeCudaDevice::vectorize`, `indexOf`, `tsdf`, `weight`, `color`
  (`src/cuda/include/cuda/integration/tsdf_volume_cuda.hpp`),
* `Utils::getFileName`, `Utils::SaveVertexMap`
  (`src/common/include/perception_utils/utils.hpp`).

Conventions. Machine integers are integers with explicit reduction: every
`int` product and sum is reduced to 32-bit two's complement (`wrapInt32`),
conversions to `std::size_t` and `unsigned int` are taken modulo `2^64` and
`2^32`, and `size_t` arithmetic is reduced modulo `2^64`.  A division by zero
has no result.  `indexExact` and `voxelCount` are exact integers: they are the
reference values the machine results are compared with.
-/

namespace Wm3D

/-! ## Data model -/

/-- `Eigen::Vector3i`: the components `v(0)`, `v(1)`, `v(2)`. -/
structure Vector3i where
  x : Int
  y : Int
  z : Int
deriving DecidableEq, Repr

/-- `TSDFVolumeCudaDevice`, restricted to the member the index arithmetic
reads (`dims_`).  The storage pointers `weight_`, `tsdf_`, `color_` are
represented by the offsets the accessors compute into them. -/
structure TSDFVolumeCudaDevice where
  dims_ : Vector3i
deriving DecidableEq, Repr

/-- Value of an `int` expression: reduction to 32-bit two's complement. -/
def wrapInt32 (a : Int) : Int :=
  (a + 2147483648) % 4294967296 - 2147483648

/-- Conversion of an `int` to `std::size_t` (modulo `2^64`). -/
def toSizeT (a : Int) : Nat :=
  (a % 18446744073709551616).toNat

namespace TSDFVolumeCudaDevice

/-- `vectorize(std::size_t index)`:
`ret(0) = int(index % dims_(0));`
`ret(1) = int((index % (dims_(0) * dims_(1))) / dims_(2));`
`ret(2) = int(index / (dims_(0) * dims_(1)));`
The product `dims_(0) * dims_(1)` is an `int` product; each `int` operand of
`%` and `/` is converted to `size_t`; `int(...)` truncates to 32 bits.  A zero
divisor has no result (`none`).  `index` is a `size_t` value, below `2^64`; an
`int` argument reaches it through `toSizeT`. -/
def vectorize (dev : TSDFVolumeCudaDevice) (index : Nat) : Option Vector3i :=
  let d0 := toSizeT dev.dims_.x
  let d01 := toSizeT (wrapInt32 (dev.dims_.x * dev.dims_.y))
  let d2 := toSizeT dev.dims_.z
  if d0 = 0 ∨ d01 = 0 ∨ d2 = 0 then none
  else
    some
      { x := wrapInt32 ((index % d0 : Nat) : Int)
        y := wrapInt32 (((index % d01) / d2 : Nat) : Int)
        z := wrapInt32 ((index / d01 : Nat) : Int) }

/-- `indexOf(v)`:
`return int(v(2) * (dims_(0) * dims_(1)) + v(1) * dims_(0) + v(0));`
with each `int` product and sum evaluated in 32 bits, in the order of the
expression. -/
def indexOf (dev : TSDFVolumeCudaDevice) (v : Vector3i) : Int :=
  wrapInt32
    (wrapInt32
        (wrapInt32 (v.z * wrapInt32 (dev.dims_.x * dev.dims_.y))
          + wrapInt32 (v.y * dev.dims_.x))
      + v.x)

/-- `tsdf(v)` returns the reference `tsdf_[indexOf(v)]`; the model is the
offset into `tsdf_` of the element that reference designates. -/
def tsdf (dev : TSDFVolumeCudaDevice) (v : Vector3i) : Int :=
  dev.indexOf v

/-- `weight(v)` returns the reference `weight_[indexOf(v)]` (as an offset). -/
def weight (dev : TSDFVolumeCudaDevice) (v : Vector3i) : Int :=
  dev.indexOf v

/-- `color(v)` returns the reference `color_[indexOf(v)]` (as an offset). -/
def color (dev : TSDFVolumeCudaDevice) (v : Vector3i) : Int :=
  dev.indexOf v

/-- The exact integer `z*dims(0)*dims(1) + y*dims(0) + x`, the reference
value of the index of `(x,y,z)`. -/
def indexExact (dev : TSDFVolumeCudaDevice) (v : Vector3i) : Int :=
  v.z * (dev.dims_.x * dev.dims_.y) + v.y * dev.dims_.x + v.x

/-- All three voxel counts are positive. -/
def PositiveDims (dev : TSDFVolumeCudaDevice) : Prop :=
  0 < dev.dims_.x ∧ 0 < dev.dims_.y ∧ 0 < dev.dims_.z

/-- The coordinate lies in `[0, dims)` on every axis. -/
def InBounds (dev : TSDFVolumeCudaDevice) (v : Vector3i) : Prop :=
  (0 ≤ v.x ∧ v.x < dev.dims_.x) ∧ (0 ≤ v.y ∧ v.y < dev.dims_.y) ∧
    (0 ≤ v.z ∧ v.z < dev.dims_.z)

/-- Number of voxels, the exact product `dims(0) * dims(1) * dims(2)`. -/
def voxelCount (dev : TSDFVolumeCudaDevice) : Int :=
  dev.dims_.x * dev.dims_.y * dev.dims_.z

/-- A device volume with the given voxel counts. -/
def grid (d0 d1 d2 : Int) : TSDFVolumeCudaDevice :=
  { dims_ := ⟨d0, d1, d2⟩ }

instance (dev : TSDFVolumeCudaDevice) : Decidable dev.PositiveDims := by
  unfold PositiveDims; infer_instance

instance (dev : TSDFVolumeCudaDevice) (v : Vector3i) : Decidable (dev.InBounds v) := by
  unfold InBounds; infer_instance

end TSDFVolumeCudaDevice

/-! ## `Utils::getFileName` -/

namespace Utils

/-- `std::string::npos`, the largest `size_t`. -/
def npos : Nat := 18446744073709551615

/-- `s.find_last_of(c)`: the position of the last occurrence of `c`, or
`npos` when `c` does not occur. -/
def find_last_of (s : List Char) (c : Char) : Nat :=
  let k := s.reverse.indexOf c
  if k < s.length then s.length - 1 - k else npos

/-- `s.substr(pos, n)`: throws `std::out_of_range` (here `none`) when
`pos > size()`, otherwise the characters from `pos`, at most `n` of them. -/
def substr (s : List Char) (pos : Nat) (n : Nat) : Option (List Char) :=
  if pos > s.length then none else some ((s.drop pos).take n)

/-- `getFileName(full_path, with_ext)`:
`size_t _pos = full_path.find_last_of('/');`
`std::string filename(full_path.substr(_pos + 1));`
`if (!with_ext) filename = filename.substr(0, filename.length() - 4);`
`return filename;`
The `size_t` expressions `_pos + 1` and `filename.length() - 4` are reduced
modulo `2^64`.  A `std::string` is a sequence of `char`; the model holds one
`Char` for each `char`, which is exact for ASCII paths. -/
def getFileName (full_path : String) (with_ext : Bool) : Option String :=
  let _pos := find_last_of full_path.data '/'
  match substr full_path.data ((_pos + 1) % 18446744073709551616) npos with
  | none => none
  | some filename =>
    if !with_ext then
      (substr filename 0
        ((filename.length + 18446744073709551616 - 4) % 18446744073709551616)).map String.mk
    else some (String.mk filename)

/-! ## `Utils::SaveVertexMap` -/

/-- A 32-bit float as stored in memory, identified by its bit pattern. -/
structure Float32 where
  bits : Nat
deriving DecidableEq, Repr

/-- The four bytes of a 32-bit word, least significant first. -/
def word32Bytes (u : Nat) : List Nat :=
  [u % 256, (u / 256) % 256, (u / 65536) % 256, (u / 16777216) % 256]

/-- Object representation of an `int`. -/
def int32Bytes (i : Int) : List Nat :=
  word32Bytes (i % 4294967296).toNat

/-- Object representation of a `float`. -/
def float32Bytes (f : Float32) : List Nat :=
  word32Bytes (f.bits % 4294967296)

/-- `cv::Mat` as `SaveVertexMap` uses it: the `int` members `rows`, `cols`, the
channel count reported by `channels()` and, for each row, the floats found at
`ptr<float>(row)`. -/
structure Mat where
  rows : Int
  cols : Int
  cn : Nat
  ptr : Nat → Nat → Float32

/-- `mat.channels()`. -/
def Mat.channels (mat : Mat) : Int := mat.cn

/-- `std::ofstream`: whether the file is open and the bytes written so far. -/
structure OFStream where
  is_open : Bool
  bytes : List Nat
deriving DecidableEq, Repr

/-- `std::ofstream f(filename, std::ios_base::binary)`: the file is created
empty when it can be opened. -/
def OFStream.mk_binary (canOpen : Bool) : OFStream :=
  { is_open := canOpen, bytes := [] }

/-- `f.write(p, n)` appends the bytes to an open stream. -/
def OFStream.write (f : OFStream) (bs : List Nat) : OFStream :=
  if f.is_open then { f with bytes := f.bytes ++ bs } else f

/-- `f.close()`. -/
def OFStream.close (f : OFStream) : OFStream :=
  { f with is_open := false }

/-- The `n` bytes found at a `float*`, as `f.write((char*)ptr, n)` reads them. -/
def bytesAt (p : Nat → Float32) (n : Nat) : List Nat :=
  (List.range n).map (fun k => (float32Bytes (p (k / 4))).getD (k % 4) 0)

/-- `channels * mat.cols * sizeof(float)`: the `int` product `channels * cols`
is evaluated in 32 bits, converted to `size_t` and multiplied by 4 modulo
`2^64`. -/
def byteCount (channels cols : Int) : Nat :=
  (toSizeT (wrapInt32 (channels * cols)) * 4) % 18446744073709551616

/-- The loop
`for (unsigned int row = 0; row < (unsigned int)mat.rows; row++)`
`{ ptr = mat.ptr<float>(row); f.write((char*)ptr, channels * mat.cols * sizeof(float)); }`
entered at `row`; `(unsigned int)mat.rows` and `row++` are taken modulo
`2^32`. -/
def writeRows (mat : Mat) (channels : Int) (row : Nat) (f : OFStream) : OFStream :=
  if row < (mat.rows % 4294967296).toNat then
    writeRows mat channels ((row + 1) % 4294967296)
      (f.write (bytesAt (mat.ptr row) (byteCount channels mat.cols)))
  else f
termination_by (mat.rows % 4294967296).toNat - row
decreasing_by omega

/-- `SaveVertexMap(mat, filename)`; `canOpen` is whether the file system lets
`filename` be opened for writing.  The result is the stream after `close()`
(or the unopened stream after the early `return`), whose `bytes` are the
content of the file; the messages sent to `std::cerr` are not part of it. -/
def SaveVertexMap (mat : Mat) (canOpen : Bool) : OFStream :=
  let f := OFStream.mk_binary canOpen
  if !f.is_open then f
  else
    let channels := mat.channels
    let f := f.write (int32Bytes mat.rows ++ int32Bytes mat.cols ++ int32Bytes channels)
    let f := writeRows mat channels 0 f
    f.close

/-- A 2 x 1 matrix with 3 channels, the float at position `j` of row `r`
having bit pattern `16 * r + j`. -/
def exampleMat : Mat :=
  { rows := 2, cols := 1, cn := 3, ptr := fun r j => ⟨16 * r + j⟩ }

/-- A 1 x 8388608 matrix with 512 channels (`2^32` floats in its row), all
floats having bit pattern 0. -/
def wideMat : Mat :=
  { rows := 1, cols := 8388608, cn := 512, ptr := fun _ _ => ⟨0⟩ }

/-- The documented layout: the rows in increasing order, each as its
`channels * cols` floats. -/
def scanlines (mat : Mat) : List Nat :=
  (List.range mat.rows.toNat).flatMap (fun r =>
    (List.range (mat.channels * mat.cols).toNat).flatMap (fun j =>
      float32Bytes (mat.ptr r j)))

end Utils

/-! ## Arithmetic of mixed-radix indices -/

/-- Quotient of `q * b + r` by `b` when `r` is a digit in base `b`. -/
theorem ediv_of_digits (q b r : Int) (h0 : 0 ≤ r) (h1 : r < b) :
    (q * b + r) / b = q := by
  have hb : b ≠ 0 := by omega
  rw [add_comm, Int.add_mul_ediv_right _ _ hb, Int.ediv_eq_zero_of_lt h0 h1]
  simp

/-- Remainder of `q * b + r` by `b` when `r` is a digit in base `b`. -/
theorem emod_of_digits (q b r : Int) (h0 : 0 ≤ r) (h1 : r < b) :
    (q * b + r) % b = r := by
  rw [add_comm, Int.add_mul_emod_self, Int.emod_eq_of_lt h0 h1]

/-- The two low digits of an in-bounds coordinate stay below `d0 * d1`. -/
theorem low_digits_lt (d0 d1 x y : Int) (hx0 : 0 ≤ x) (hx : x < d0)
    (hy0 : 0 ≤ y) (hy : y < d1) : 0 ≤ y * d0 + x ∧ y * d0 + x < d0 * d1 := by
  constructor
  · have : 0 ≤ y * d0 := mul_nonneg hy0 (by omega)
    omega
  · have h : (y + 1) * d0 ≤ d1 * d0 := by
      apply mul_le_mul_of_nonneg_right (by omega) (by omega)
    nlinarith

/-- Values in the range of `int` are fixed by `wrapInt32`. -/
theorem wrapInt32_of_range (a : Int) (h0 : -2147483648 ≤ a) (h1 : a ≤ 2147483647) :
    wrapInt32 a = a := by
  unfold wrapInt32
  omega

/-- A non-negative `int` keeps its value when converted to `size_t`. -/
theorem toSizeT_of_range (a : Int) (h0 : 0 ≤ a) (h1 : a ≤ 2147483647) :
    ((toSizeT a : Nat) : Int) = a := by
  unfold toSizeT
  omega

namespace TSDFVolumeCudaDevice

/-- Digits of the exact index of an in-bounds coordinate. -/
theorem indexExact_digits (dev : TSDFVolumeCudaDevice) (v : Vector3i)
    (hv : dev.InBounds v) :
    dev.indexExact v / (dev.dims_.x * dev.dims_.y) = v.z ∧
      dev.indexExact v % (dev.dims_.x * dev.dims_.y) = v.y * dev.dims_.x + v.x ∧
      dev.indexExact v % dev.dims_.x = v.x ∧
      (v.y * dev.dims_.x + v.x) / dev.dims_.x = v.y := by
  obtain ⟨⟨hx0, hx⟩, ⟨hy0, hy⟩, _, _⟩ := hv
  obtain ⟨hr0, hr⟩ := low_digits_lt dev.dims_.x dev.dims_.y v.x v.y hx0 hx hy0 hy
  have e1 : dev.indexExact v =
      v.z * (dev.dims_.x * dev.dims_.y) + (v.y * dev.dims_.x + v.x) := by
    unfold indexExact; ring
  have e2 : dev.indexExact v = (v.z * dev.dims_.y + v.y) * dev.dims_.x + v.x := by
    unfold indexExact; ring
  refine ⟨?_, ?_, ?_, ?_⟩
  · rw [e1]; exact ediv_of_digits _ _ _ hr0 hr
  · rw [e1]; exact emod_of_digits _ _ _ hr0 hr
  · rw [e2]; exact emod_of_digits _ _ _ hx0 hx
  · exact ediv_of_digits _ _ _ hx0 hx

/-- The exact index of an in-bounds coordinate lies in the storage range. -/
theorem indexExact_range (dev : TSDFVolumeCudaDevice) (v : Vector3i)
    (hd : dev.PositiveDims) (hv : dev.InBounds v) :
    0 ≤ dev.indexExact v ∧ dev.indexExact v < dev.voxelCount := by
  obtain ⟨⟨hx0, hx⟩, ⟨hy0, hy⟩, hz0, hz⟩ := hv
  obtain ⟨h0, h1, _⟩ := hd
  obtain ⟨hr0, hr⟩ := low_digits_lt dev.dims_.x dev.dims_.y v.x v.y hx0 hx hy0 hy
  have hp : 0 < dev.dims_.x * dev.dims_.y := mul_pos h0 h1
  have hz1 : 0 ≤ v.z * (dev.dims_.x * dev.dims_.y) := mul_nonneg hz0 hp.le
  have hz2 : (v.z + 1) * (dev.dims_.x * dev.dims_.y)
      ≤ dev.dims_.z * (dev.dims_.x * dev.dims_.y) :=
    mul_le_mul_of_nonneg_right (by omega) hp.le
  unfold indexExact voxelCount
  constructor
  · linarith
  · nlinarith

/-- Two in-bounds coordinates with the same exact index are equal. -/
theorem indexExact_inj (dev : TSDFVolumeCudaDevice) (u v : Vector3i)
    (hu : dev.InBounds u) (hv : dev.InBounds v)
    (h : dev.indexExact u = dev.indexExact v) : u = v := by
  obtain ⟨uz, ur, ux, uy⟩ := indexExact_digits dev u hu
  obtain ⟨vz, vr, vx, vy⟩ := indexExact_digits dev v hv
  rw [h] at uz ur ux
  have ez : u.z = v.z := by rw [← uz, ← vz]
  have ex : u.x = v.x := by rw [← ux, ← vx]
  have er : u.y * dev.dims_.x + u.x = v.y * dev.dims_.x + v.x := by rw [← ur, ← vr]
  have ey : u.y = v.y := by rw [← uy, ← vy, er]
  cases u; cases v; simp_all

/-- The true inverse of the exact index on the storage range: the middle digit
is obtained by dividing by `dims(0)`. -/
theorem indexExact_surj (dev : TSDFVolumeCudaDevice) (i : Int)
    (hd : dev.PositiveDims) (h0 : 0 ≤ i) (h1 : i < dev.voxelCount) :
    dev.InBounds ⟨i % dev.dims_.x, (i % (dev.dims_.x * dev.dims_.y)) / dev.dims_.x,
        i / (dev.dims_.x * dev.dims_.y)⟩ ∧
      dev.indexExact ⟨i % dev.dims_.x, (i % (dev.dims_.x * dev.dims_.y)) / dev.dims_.x,
        i / (dev.dims_.x * dev.dims_.y)⟩ = i := by
  obtain ⟨d0, d1, d2⟩ := hd
  have hp : 0 < dev.dims_.x * dev.dims_.y := mul_pos d0 d1
  have m0 : 0 ≤ i % (dev.dims_.x * dev.dims_.y) := Int.emod_nonneg _ (by omega)
  have m1 : i % (dev.dims_.x * dev.dims_.y) < dev.dims_.x * dev.dims_.y :=
    Int.emod_lt_of_pos _ hp
  constructor
  · refine ⟨⟨Int.emod_nonneg _ (by omega), Int.emod_lt_of_pos _ d0⟩,
      ⟨Int.ediv_nonneg m0 d0.le, ?_⟩, Int.ediv_nonneg h0 hp.le, ?_⟩
    · apply Int.ediv_lt_of_lt_mul d0
      linarith
    · apply Int.ediv_lt_of_lt_mul hp
      unfold voxelCount at h1
      linarith
  · unfold indexExact
    simp only
    have c : i % dev.dims_.x = i % (dev.dims_.x * dev.dims_.y) % dev.dims_.x :=
      (Int.emod_emod_of_dvd i (dvd_mul_right _ _)).symm
    have a := Int.emod_add_ediv i (dev.dims_.x * dev.dims_.y)
    have b := Int.emod_add_ediv (i % (dev.dims_.x * dev.dims_.y)) dev.dims_.x
    rw [← c] at b
    linear_combination a + b

/-- On a grid that fits in `int`, no operation of `indexOf` leaves the range
`[0, 2^31 - 1]` on an in-bounds coordinate, and the result is the exact index. -/
theorem indexOf_steps (dev : TSDFVolumeCudaDevice) (v : Vector3i)
    (hd : dev.PositiveDims) (hfit : dev.voxelCount ≤ 2147483647) (hv : dev.InBounds v) :
    (0 ≤ dev.dims_.x * dev.dims_.y ∧ dev.dims_.x * dev.dims_.y ≤ 2147483647) ∧
      (0 ≤ v.z * (dev.dims_.x * dev.dims_.y) ∧
        v.z * (dev.dims_.x * dev.dims_.y) ≤ 2147483647) ∧
      (0 ≤ v.y * dev.dims_.x ∧ v.y * dev.dims_.x ≤ 2147483647) ∧
      (0 ≤ v.z * (dev.dims_.x * dev.dims_.y) + v.y * dev.dims_.x ∧
        v.z * (dev.dims_.x * dev.dims_.y) + v.y * dev.dims_.x ≤ 2147483647) ∧
      (0 ≤ v.z * (dev.dims_.x * dev.dims_.y) + v.y * dev.dims_.x + v.x ∧
        v.z * (dev.dims_.x * dev.dims_.y) + v.y * dev.dims_.x + v.x ≤ 2147483647) ∧
      dev.indexOf v = dev.indexExact v := by
  obtain ⟨h0, h1⟩ := indexExact_range dev v hd hv
  obtain ⟨⟨hx0, hx⟩, ⟨hy0, hy⟩, hz0, hz⟩ := hv
  obtain ⟨d0, d1, d2⟩ := hd
  have hp : 0 < dev.dims_.x * dev.dims_.y := mul_pos d0 d1
  have hpN : dev.dims_.x * dev.dims_.y ≤ dev.voxelCount := by
    unfold voxelCount
    exact le_mul_of_one_le_right hp.le (by omega)
  have hzp : 0 ≤ v.z * (dev.dims_.x * dev.dims_.y) := mul_nonneg hz0 hp.le
  have hyd : 0 ≤ v.y * dev.dims_.x := mul_nonneg hy0 d0.le
  unfold indexExact at h0 h1
  have b1 : dev.dims_.x * dev.dims_.y ≤ 2147483647 := by omega
  have b2 : v.z * (dev.dims_.x * dev.dims_.y) ≤ 2147483647 := by omega
  have b3 : v.y * dev.dims_.x ≤ 2147483647 := by omega
  have b4 : v.z * (dev.dims_.x * dev.dims_.y) + v.y * dev.dims_.x ≤ 2147483647 := by omega
  have b5 : v.z * (dev.dims_.x * dev.dims_.y) + v.y * dev.dims_.x + v.x ≤ 2147483647 := by
    omega
  refine ⟨⟨hp.le, b1⟩, ⟨hzp, b2⟩, ⟨hyd, b3⟩, ⟨by omega, b4⟩, ⟨by omega, b5⟩, ?_⟩
  unfold indexOf indexExact
  rw [wrapInt32_of_range _ (by omega) b1, wrapInt32_of_range _ (by omega) b2,
    wrapInt32_of_range _ (by omega) b3, wrapInt32_of_range _ (by omega) b4,
    wrapInt32_of_range _ (by omega) b5]

/-- On a grid that fits in `int`, `indexOf` is the exact index of an in-bounds
coordinate. -/
theorem indexOf_eq_exact (dev : TSDFVolumeCudaDevice) (v : Vector3i)
    (hd : dev.PositiveDims) (hfit : dev.voxelCount ≤ 2147483647) (hv : dev.InBounds v) :
    dev.indexOf v = dev.indexExact v :=
  (indexOf_steps dev v hd hfit hv).2.2.2.2.2

/-- On a grid that fits in `int`, `vectorize` divides without any wrap: for an
index of the storage range it returns
`(i mod d0, (i mod (d0*d1)) / d2, i / (d0*d1))`. -/
theorem vectorize_of_fit (dev : TSDFVolumeCudaDevice) (i : Nat)
    (hd : dev.PositiveDims) (hfit : dev.voxelCount ≤ 2147483647) (hi : (i : Int) < dev.voxelCount) :
    dev.vectorize i =
      some ⟨(i : Int) % dev.dims_.x,
        ((i : Int) % (dev.dims_.x * dev.dims_.y)) / dev.dims_.z,
        (i : Int) / (dev.dims_.x * dev.dims_.y)⟩ := by
  obtain ⟨d0, d1, d2⟩ := hd
  have hp : 0 < dev.dims_.x * dev.dims_.y := mul_pos d0 d1
  have hpN : dev.dims_.x * dev.dims_.y ≤ dev.voxelCount := by
    unfold voxelCount
    exact le_mul_of_one_le_right hp.le (by omega)
  have hx1 : dev.dims_.x ≤ dev.dims_.x * dev.dims_.y :=
    le_mul_of_one_le_right d0.le (by omega)
  have hzN : dev.dims_.z ≤ dev.voxelCount := by
    unfold voxelCount
    exact le_mul_of_one_le_left d2.le (by omega)
  have hw : wrapInt32 (dev.dims_.x * dev.dims_.y) = dev.dims_.x * dev.dims_.y :=
    wrapInt32_of_range _ (by omega) (by omega)
  have c0 := toSizeT_of_range dev.dims_.x d0.le (by omega)
  have c01 := toSizeT_of_range (dev.dims_.x * dev.dims_.y) hp.le (by omega)
  have c2 := toSizeT_of_range dev.dims_.z d2.le (by omega)
  have i0 : (0 : Int) ≤ i := Int.ofNat_nonneg i
  -- the three quotients and remainders, over the integers
  have ex : ((i % toSizeT dev.dims_.x : Nat) : Int) = (i : Int) % dev.dims_.x := by
    rw [Int.natCast_mod, c0]
  have ey : (((i % toSizeT (dev.dims_.x * dev.dims_.y)) / toSizeT dev.dims_.z : Nat) : Int)
      = ((i : Int) % (dev.dims_.x * dev.dims_.y)) / dev.dims_.z := by
    rw [Int.natCast_div, Int.natCast_mod, c01, c2]
  have ez : ((i / toSizeT (dev.dims_.x * dev.dims_.y) : Nat) : Int)
      = (i : Int) / (dev.dims_.x * dev.dims_.y) := by
    rw [Int.natCast_div, c01]
  have bx0 : 0 ≤ (i : Int) % dev.dims_.x := Int.emod_nonneg _ (by omega)
  have bx1 : (i : Int) % dev.dims_.x < dev.dims_.x := Int.emod_lt_of_pos _ d0
  have bm0 : 0 ≤ (i : Int) % (dev.dims_.x * dev.dims_.y) := Int.emod_nonneg _ (by omega)
  have bm1 : (i : Int) % (dev.dims_.x * dev.dims_.y) < dev.dims_.x * dev.dims_.y :=
    Int.emod_lt_of_pos _ hp
  have by0 : 0 ≤ ((i : Int) % (dev.dims_.x * dev.dims_.y)) / dev.dims_.z :=
    Int.ediv_nonneg bm0 d2.le
  have by1 : ((i : Int) % (dev.dims_.x * dev.dims_.y)) / dev.dims_.z
      ≤ (i : Int) % (dev.dims_.x * dev.dims_.y) :=
    Int.ediv_le_self _ bm0
  have bz0 : 0 ≤ (i : Int) / (dev.dims_.x * dev.dims_.y) := Int.ediv_nonneg i0 hp.le
  have bz1 : (i : Int) / (dev.dims_.x * dev.dims_.y) ≤ (i : Int) := Int.ediv_le_self _ i0
  have n0 : toSizeT dev.dims_.x ≠ 0 := by
    intro h; rw [h] at c0; simp at c0; omega
  have n01 : toSizeT (dev.dims_.x * dev.dims_.y) ≠ 0 := by
    intro h; rw [h] at c01; simp at c01; omega
  have n2 : toSizeT dev.dims_.z ≠ 0 := by
    intro h; rw [h] at c2; simp at c2; omega
  unfold vectorize
  simp only [hw]
  rw [if_neg (by simp [n0, n01, n2]), ex, ey, ez,
    wrapInt32_of_range _ (by omega) (by omega), wrapInt32_of_range _ (by omega) (by omega),
    wrapInt32_of_range _ (by omega) (by omega)]

/-- What `vectorize` returns on the index of an in-bounds coordinate of a grid
that fits in `int`. -/
theorem vectorize_indexOf_components (dev : TSDFVolumeCudaDevice) (v : Vector3i)
    (hd : dev.PositiveDims) (hfit : dev.voxelCount ≤ 2147483647) (hv : dev.InBounds v) :
    dev.vectorize (toSizeT (dev.indexOf v)) =
      some ⟨v.x, (v.y * dev.dims_.x + v.x) / dev.dims_.z, v.z⟩ := by
  obtain ⟨ez, er, ex, _⟩ := indexExact_digits dev v hv
  obtain ⟨r0, r1⟩ := indexExact_range dev v hd hv
  have e := indexOf_eq_exact dev v hd hfit hv
  have hn : ((toSizeT (dev.indexOf v) : Nat) : Int) = dev.indexExact v := by
    rw [e]; exact toSizeT_of_range _ r0 (by omega)
  rw [vectorize_of_fit dev _ hd hfit (by rw [hn]; exact r1), hn, ez, er, ex]

/-! ## The claims on the index mapping -/

/-- C1. Coordinate -> index -> coordinate is not the identity on every grid:
on the 2 x 2 x 1 grid the in-bounds coordinate (1,0,0) has index 1 and
`vectorize` sends that index to (1,1,0). -/
theorem C1_vectorize_indexOf_differs :
    (grid 2 2 1).PositiveDims ∧ (grid 2 2 1).InBounds ⟨1, 0, 0⟩ ∧
      (grid 2 2 1).indexOf ⟨1, 0, 0⟩ = 1 ∧
      (grid 2 2 1).vectorize (toSizeT ((grid 2 2 1).indexOf ⟨1, 0, 0⟩)) = some ⟨1, 1, 0⟩ ∧
      (grid 2 2 1).vectorize (toSizeT ((grid 2 2 1).indexOf ⟨1, 0, 0⟩)) ≠ some ⟨1, 0, 0⟩ := by
  decide

/-- C2. Index -> coordinate -> index is not the identity on every grid: on the
2 x 2 x 1 grid, whose index range is 0..3, `vectorize` sends index 1 to
(1,1,0), whose index is 3. -/
theorem C2_indexOf_vectorize_differs :
    (grid 2 2 1).PositiveDims ∧ (1 : Int) < (grid 2 2 1).voxelCount ∧
      (grid 2 2 1).vectorize 1 = some ⟨1, 1, 0⟩ ∧
      (grid 2 2 1).indexOf ⟨1, 1, 0⟩ = 3 ∧
      ((grid 2 2 1).vectorize 1).map (grid 2 2 1).indexOf ≠ some 1 := by
  decide

/-- C3, as stated, fails on grids of more than `2^31 - 1` voxels: on the
1291^3 grid the in-bounds coordinate (1290,1290,1290) gets the negative index
-2143282126, and on the 1626^3 grid the distinct in-bounds coordinates
(490,807,1624) and (0,0,0) get the same index. -/
theorem C3_indexOf_fails_on_large_grid :
    ((grid 1291 1291 1291).PositiveDims ∧
        (grid 1291 1291 1291).InBounds ⟨1290, 1290, 1290⟩ ∧
        (grid 1291 1291 1291).indexOf ⟨1290, 1290, 1290⟩ = -2143282126 ∧
        ¬ (0 ≤ (grid 1291 1291 1291).indexOf ⟨1290, 1290, 1290⟩)) ∧
      ((grid 1626 1626 1626).PositiveDims ∧
        (grid 1626 1626 1626).InBounds ⟨490, 807, 1624⟩ ∧
        (grid 1626 1626 1626).InBounds ⟨0, 0, 0⟩ ∧
        (⟨490, 807, 1624⟩ : Vector3i) ≠ ⟨0, 0, 0⟩ ∧
        (grid 1626 1626 1626).indexOf ⟨490, 807, 1624⟩ =
          (grid 1626 1626 1626).indexOf ⟨0, 0, 0⟩) := by
  decide

/-- C3, amended. On a grid with positive dims and at most `2^31 - 1` voxels
`indexOf` is a bijection from the in-bounds coordinates onto
`0 .. dims(0)*dims(1)*dims(2) - 1`: the index of an in-bounds coordinate lies
in that range, two distinct in-bounds coordinates have distinct indices, and
every index of the range is the index of an in-bounds coordinate. -/
theorem C3_indexOf_bijection (dev : TSDFVolumeCudaDevice) (hd : dev.PositiveDims)
    (hfit : dev.voxelCount ≤ 2147483647) :
    (∀ v, dev.InBounds v → 0 ≤ dev.indexOf v ∧ dev.indexOf v ≤ dev.voxelCount - 1) ∧
      (∀ u v, dev.InBounds u → dev.InBounds v → u ≠ v → dev.indexOf u ≠ dev.indexOf v) ∧
      (∀ i : Int, 0 ≤ i → i ≤ dev.voxelCount - 1 →
        ∃ v, dev.InBounds v ∧ dev.indexOf v = i) := by
  refine ⟨?_, ?_, ?_⟩
  · intro v hv
    have h := indexExact_range dev v hd hv
    rw [indexOf_eq_exact dev v hd hfit hv]
    omega
  · intro u v hu hv hne h
    rw [indexOf_eq_exact dev u hd hfit hu, indexOf_eq_exact dev v hd hfit hv] at h
    exact hne (indexExact_inj dev u v hu hv h)
  · intro i h0 h1
    obtain ⟨hb, he⟩ := indexExact_surj dev i hd h0 (by omega)
    exact ⟨_, hb, by rw [indexOf_eq_exact dev _ hd hfit hb, he]⟩

/-- Witness of the amended C3 on the 2 x 3 x 4 grid. -/
theorem C3_indexOf_bijection_witness :
    (grid 2 3 4).PositiveDims ∧ (grid 2 3 4).voxelCount ≤ 2147483647 ∧
      (0 ≤ (grid 2 3 4).indexOf ⟨1, 2, 3⟩ ∧
        (grid 2 3 4).indexOf ⟨1, 2, 3⟩ ≤ (grid 2 3 4).voxelCount - 1) :=
  ⟨by decide, by decide,
    (C3_indexOf_bijection (grid 2 3 4) (by decide) (by decide)).1 ⟨1, 2, 3⟩ (by decide)⟩

/-- C4, as stated, fails: on the 2 x 2 x 2 grid the coordinate (2,0,0) is out
of bounds on the x axis, and `tsdf`, `weight` and `color` resolve it to slot
2, the slot of the in-bounds voxel (0,1,0). -/
theorem C4_out_of_bounds_aliases :
    (grid 2 2 2).PositiveDims ∧ ¬ (grid 2 2 2).InBounds ⟨2, 0, 0⟩ ∧
      (grid 2 2 2).InBounds ⟨0, 1, 0⟩ ∧
      (grid 2 2 2).indexOf ⟨0, 1, 0⟩ = (grid 2 2 2).tsdf ⟨2, 0, 0⟩ ∧
      (grid 2 2 2).indexOf ⟨0, 1, 0⟩ = (grid 2 2 2).weight ⟨2, 0, 0⟩ ∧
      (grid 2 2 2).indexOf ⟨0, 1, 0⟩ = (grid 2 2 2).color ⟨2, 0, 0⟩ := by
  decide

/-- C4, amended. The accessors apply no guard: for an out-of-bounds coordinate
`v` of a grid with positive dims and at most `2^31 - 1` voxels, `tsdf(v)`,
`weight(v)` and `color(v)` resolve to slot `indexOf(v)`, and that slot is the
slot of an in-bounds voxel (another voxel than `v`) exactly when
`0 <= indexOf(v) < dims(0)*dims(1)*dims(2)`. -/
theorem C4_accessors_unguarded (dev : TSDFVolumeCudaDevice) (v : Vector3i)
    (hd : dev.PositiveDims) (hfit : dev.voxelCount ≤ 2147483647)
    (hv : ¬ dev.InBounds v) :
    dev.tsdf v = dev.indexOf v ∧ dev.weight v = dev.indexOf v ∧
      dev.color v = dev.indexOf v ∧
      ((∃ u, dev.InBounds u ∧ u ≠ v ∧ dev.indexOf u = dev.tsdf v) ↔
        (0 ≤ dev.indexOf v ∧ dev.indexOf v < dev.voxelCount)) := by
  refine ⟨rfl, rfl, rfl, ?_⟩
  unfold tsdf
  constructor
  · rintro ⟨u, hu, _, e⟩
    rw [← e, indexOf_eq_exact dev u hd hfit hu]
    exact indexExact_range dev u hd hu
  · rintro ⟨h0, h1⟩
    obtain ⟨hb, he⟩ := indexExact_surj dev (dev.indexOf v) hd h0 h1
    refine ⟨_, hb, ?_, by rw [indexOf_eq_exact dev _ hd hfit hb, he]⟩
    intro huv
    rw [huv] at hb
    exact hv hb

/-- Witness of the amended C4 on the 2 x 2 x 2 grid at (2,0,0). -/
theorem C4_accessors_unguarded_witness :
    (grid 2 2 2).PositiveDims ∧ (grid 2 2 2).voxelCount ≤ 2147483647 ∧
      ¬ (grid 2 2 2).InBounds ⟨2, 0, 0⟩ ∧
      ((∃ u, (grid 2 2 2).InBounds u ∧ u ≠ ⟨2, 0, 0⟩ ∧
          (grid 2 2 2).indexOf u = (grid 2 2 2).tsdf ⟨2, 0, 0⟩) ↔
        (0 ≤ (grid 2 2 2).indexOf ⟨2, 0, 0⟩ ∧
          (grid 2 2 2).indexOf ⟨2, 0, 0⟩ < (grid 2 2 2).voxelCount)) :=
  ⟨by decide, by decide, by decide,
    (C4_accessors_unguarded (grid 2 2 2) ⟨2, 0, 0⟩ (by decide) (by decide)
      (by decide)).2.2.2⟩

/-- C6, as stated, fails on grids of more than `2^31 - 1` voxels: on the
1291^3 grid `vectorize(indexOf(v))` of the in-bounds `v = (1290,1290,1290)` is
(91,1211,-179463234), so the x and z components differ from those of `v`
too. -/
theorem C6_x_and_z_differ_on_large_grid :
    (grid 1291 1291 1291).PositiveDims ∧
      (grid 1291 1291 1291).InBounds ⟨1290, 1290, 1290⟩ ∧
      (grid 1291 1291 1291).vectorize
          (toSizeT ((grid 1291 1291 1291).indexOf ⟨1290, 1290, 1290⟩)) =
        some ⟨91, 1211, -179463234⟩ ∧
      (91 : Int) ≠ 1290 ∧ (-179463234 : Int) ≠ 1290 := by
  decide

/-- C6, amended. For an in-bounds coordinate of a grid with positive dims and
at most `2^31 - 1` voxels, `vectorize` of its index returns a coordinate with
the right x and z components; its y component is
`(index mod (dims(0)*dims(1))) / dims(2)`, that is `(y*dims(0) + x) / dims(2)`,
whereas dividing the same remainder by `dims(0)` gives y. -/
theorem C6_only_y_axis_differs (dev : TSDFVolumeCudaDevice) (v : Vector3i)
    (hd : dev.PositiveDims) (hfit : dev.voxelCount ≤ 2147483647)
    (hv : dev.InBounds v) :
    ∃ w, dev.vectorize (toSizeT (dev.indexOf v)) = some w ∧
      w.x = v.x ∧ w.z = v.z ∧
      w.y = (dev.indexOf v % (dev.dims_.x * dev.dims_.y)) / dev.dims_.z ∧
      w.y = (v.y * dev.dims_.x + v.x) / dev.dims_.z ∧
      (dev.indexOf v % (dev.dims_.x * dev.dims_.y)) / dev.dims_.x = v.y := by
  obtain ⟨_, er, _, ey⟩ := indexExact_digits dev v hv
  refine ⟨_, vectorize_indexOf_components dev v hd hfit hv, rfl, rfl, ?_, rfl, ?_⟩
  · rw [indexOf_eq_exact dev v hd hfit hv, er]
  · rw [indexOf_eq_exact dev v hd hfit hv, er]
    exact ey

/-- Witness of the amended C6 on the 2 x 2 x 1 grid at (1,0,0). -/
theorem C6_only_y_axis_differs_witness :
    (grid 2 2 1).PositiveDims ∧ (grid 2 2 1).voxelCount ≤ 2147483647 ∧
      (grid 2 2 1).InBounds ⟨1, 0, 0⟩ ∧
      ∃ w, (grid 2 2 1).vectorize (toSizeT ((grid 2 2 1).indexOf ⟨1, 0, 0⟩)) = some w ∧
        w.x = 1 ∧ w.z = 0 :=
  ⟨by decide, by decide, by decide,
    (C6_only_y_axis_differs (grid 2 2 1) ⟨1, 0, 0⟩ (by decide) (by decide)
      (by decide)).imp (fun _ h => ⟨h.1, h.2.1, h.2.2.1⟩)⟩

/-- C8, as stated, fails on grids of more than `2^31 - 1` voxels: on the
1291^3 grid, where `dims(0) = dims(2)`, `vectorize(indexOf(v))` differs from
the in-bounds `v = (1290,1290,1290)`, and the index 2151685170 of the range is
sent by `vectorize` to `v`, whose index is -2143282126. -/
theorem C8_fails_on_large_grid :
    (grid 1291 1291 1291).PositiveDims ∧
      (grid 1291 1291 1291).dims_.x = (grid 1291 1291 1291).dims_.z ∧
      (grid 1291 1291 1291).InBounds ⟨1290, 1290, 1290⟩ ∧
      (grid 1291 1291 1291).vectorize
          (toSizeT ((grid 1291 1291 1291).indexOf ⟨1290, 1290, 1290⟩)) ≠
        some ⟨1290, 1290, 1290⟩ ∧
      ((2151685170 : Nat) : Int) < (grid 1291 1291 1291).voxelCount ∧
      (grid 1291 1291 1291).vectorize 2151685170 = some ⟨1290, 1290, 1290⟩ ∧
      (grid 1291 1291 1291).indexOf ⟨1290, 1290, 1290⟩ ≠ ((2151685170 : Nat) : Int) := by
  decide

/-- C8, amended. On a grid with positive dims, at most `2^31 - 1` voxels and
`dims(0) = dims(2)`, `vectorize` and `indexOf` are mutually inverse:
`vectorize(indexOf(v)) = v` for every in-bounds `v`, and for every index
`i < dims(0)*dims(1)*dims(2)` the coordinate `vectorize(i)` is in bounds and
`indexOf(vectorize(i)) = i`. -/
theorem C8_inverse_when_dims0_eq_dims2 (dev : TSDFVolumeCudaDevice)
    (hd : dev.PositiveDims) (hfit : dev.voxelCount ≤ 2147483647)
    (he : dev.dims_.x = dev.dims_.z) :
    (∀ v, dev.InBounds v → dev.vectorize (toSizeT (dev.indexOf v)) = some v) ∧
      (∀ i : Nat, (i : Int) < dev.voxelCount →
        ∃ w, dev.vectorize i = some w ∧ dev.InBounds w ∧ dev.indexOf w = i) := by
  constructor
  · intro v hv
    obtain ⟨_, _, _, ey⟩ := indexExact_digits dev v hv
    rw [vectorize_indexOf_components dev v hd hfit hv, ← he, ey]
  · intro i hi
    obtain ⟨hb, hx⟩ := indexExact_surj dev i hd (Int.ofNat_nonneg i) hi
    refine ⟨_, vectorize_of_fit dev i hd hfit hi, ?_, ?_⟩
    · rw [← he]; exact hb
    · rw [← he, indexOf_eq_exact dev _ hd hfit hb]
      exact hx

/-- Witness of the amended C8 on the 2 x 3 x 2 grid. -/
theorem C8_inverse_when_dims0_eq_dims2_witness :
    (grid 2 3 2).PositiveDims ∧ (grid 2 3 2).voxelCount ≤ 2147483647 ∧
      (grid 2 3 2).dims_.x = (grid 2 3 2).dims_.z ∧
      (grid 2 3 2).vectorize (toSizeT ((grid 2 3 2).indexOf ⟨1, 2, 1⟩)) = some ⟨1, 2, 1⟩ :=
  ⟨by decide, by decide, by decide,
    (C8_inverse_when_dims0_eq_dims2 (grid 2 3 2) (by decide) (by decide) (by decide)).1
      ⟨1, 2, 1⟩ (by decide)⟩

/-- C9. On a grid with positive dims and at most `2^31 - 1` voxels, for every
in-bounds `v` the products `dims(0)*dims(1)`, `v(2)*(dims(0)*dims(1))`,
`v(1)*dims(0)` and the two sums of `indexOf` lie in `[0, 2^31 - 1]`, and the
32-bit evaluation equals the exact integer `z*dims(0)*dims(1) + y*dims(0) + x`. -/
theorem C9_indexOf_no_overflow (dev : TSDFVolumeCudaDevice) (v : Vector3i)
    (hd : dev.PositiveDims) (hfit : dev.voxelCount ≤ 2147483647)
    (hv : dev.InBounds v) :
    (0 ≤ dev.dims_.x * dev.dims_.y ∧ dev.dims_.x * dev.dims_.y ≤ 2147483647) ∧
      (0 ≤ v.z * (dev.dims_.x * dev.dims_.y) ∧
        v.z * (dev.dims_.x * dev.dims_.y) ≤ 2147483647) ∧
      (0 ≤ v.y * dev.dims_.x ∧ v.y * dev.dims_.x ≤ 2147483647) ∧
      (0 ≤ v.z * (dev.dims_.x * dev.dims_.y) + v.y * dev.dims_.x ∧
        v.z * (dev.dims_.x * dev.dims_.y) + v.y * dev.dims_.x ≤ 2147483647) ∧
      (0 ≤ v.z * (dev.dims_.x * dev.dims_.y) + v.y * dev.dims_.x + v.x ∧
        v.z * (dev.dims_.x * dev.dims_.y) + v.y * dev.dims_.x + v.x ≤ 2147483647) ∧
      dev.indexOf v = v.z * dev.dims_.x * dev.dims_.y + v.y * dev.dims_.x + v.x ∧
      dev.indexOf v = dev.indexExact v := by
  obtain ⟨a, b, c, d, e, f⟩ := indexOf_steps dev v hd hfit hv
  refine ⟨a, b, c, d, e, ?_, f⟩
  rw [f]
  unfold indexExact
  ring

/-- Beyond `2^31 - 1` voxels the 32-bit evaluation leaves the exact value: on
the 65536 x 65536 x 1 grid the product `v(1) * dims(0)` of (0,32768,0) is
`2^31`. -/
theorem indexOf_wraps_on_large_grid :
    (grid 65536 65536 1).PositiveDims ∧ (grid 65536 65536 1).InBounds ⟨0, 32768, 0⟩ ∧
      (grid 65536 65536 1).indexExact ⟨0, 32768, 0⟩ = 2147483648 ∧
      (grid 65536 65536 1).indexOf ⟨0, 32768, 0⟩ = -2147483648 := by
  decide

/-- Witness of C9 on the 640 x 480 x 512 grid at its last voxel. -/
theorem C9_indexOf_no_overflow_witness :
    (grid 640 480 512).PositiveDims ∧ (grid 640 480 512).voxelCount ≤ 2147483647 ∧
      (grid 640 480 512).InBounds ⟨639, 479, 511⟩ ∧
      (grid 640 480 512).indexOf ⟨639, 479, 511⟩ =
        (grid 640 480 512).indexExact ⟨639, 479, 511⟩ :=
  ⟨by decide, by decide, by decide,
    (C9_indexOf_no_overflow (grid 640 480 512) ⟨639, 479, 511⟩ (by decide) (by decide)
      (by decide)).2.2.2.2.2.2⟩

end TSDFVolumeCudaDevice

/-! ## `SaveVertexMap` -/

namespace Utils

/-- The first `4 * n` bytes at a `float*` are the bytes of its first `n` floats. -/
theorem bytesAt_floats (p : Nat → Float32) (n : Nat) :
    bytesAt p (4 * n) = (List.range n).flatMap (fun j => float32Bytes (p j)) := by
  induction n with
  | zero => rfl
  | succ n ih =>
    have e : 4 * (n + 1) = 4 * n + 1 + 1 + 1 + 1 := by ring
    unfold bytesAt at ih ⊢
    rw [e, List.range_succ, List.range_succ, List.range_succ, List.range_succ,
      List.range_succ n, List.flatMap_append, ← ih]
    have q0 : (4 * n) / 4 = n := by omega
    have q1 : (4 * n + 1) / 4 = n := by omega
    have q2 : (4 * n + 1 + 1) / 4 = n := by omega
    have q3 : (4 * n + 1 + 1 + 1) / 4 = n := by omega
    have r0 : (4 * n) % 4 = 0 := by omega
    have r1 : (4 * n + 1) % 4 = 1 := by omega
    have r2 : (4 * n + 1 + 1) % 4 = 2 := by omega
    have r3 : (4 * n + 1 + 1 + 1) % 4 = 3 := by omega
    simp [q0, q1, q2, q3, r0, r1, r2, r3, float32Bytes, word32Bytes]

/-- Length of a concatenation of blocks of one size. -/
theorem length_flatMap_const {α β : Type} (l : List α) (f : α → List β) (c : Nat)
    (h : ∀ a, (f a).length = c) : (l.flatMap f).length = l.length * c := by
  induction l with
  | nil => simp
  | cons a l ih => simp [List.flatMap_cons, h, ih]; ring

/-- The loop appends the remaining rows in increasing order and leaves the
stream open. -/
theorem writeRows_bytes (mat : Mat) (channels : Int) (k : Nat) :
    ∀ (row : Nat) (f : OFStream), f.is_open = true →
      row + k = (mat.rows % 4294967296).toNat →
      writeRows mat channels row f =
        { is_open := true
          bytes := f.bytes ++ (List.range' row k).flatMap (fun r =>
            bytesAt (mat.ptr r) (byteCount channels mat.cols)) } := by
  induction k with
  | zero =>
    intro row f hf hk
    rw [writeRows, if_neg (by omega)]
    cases f
    simp_all
  | succ k ih =>
    intro row f hf hk
    have hs : (row + 1) % 4294967296 = row + 1 := by omega
    rw [writeRows, if_pos (by omega), hs,
      ih (row + 1) _ (by simp [OFStream.write, hf]) (by omega)]
    simp [OFStream.write, hf, List.range'_succ]

/-- Content of the file when it opens, as the loop writes it. -/
theorem SaveVertexMap_open (mat : Mat) :
    (SaveVertexMap mat true).bytes =
      int32Bytes mat.rows ++ int32Bytes mat.cols ++ int32Bytes mat.channels ++
        (List.range (mat.rows % 4294967296).toNat).flatMap (fun r =>
          bytesAt (mat.ptr r) (byteCount mat.channels mat.cols)) := by
  unfold SaveVertexMap
  simp only [OFStream.mk_binary, Bool.not_true, Bool.false_eq_true, if_false]
  rw [writeRows_bytes mat mat.channels (mat.rows % 4294967296).toNat 0 _
    (by simp [OFStream.write]) (by omega)]
  simp [OFStream.write, OFStream.close, List.range_eq_range']

/-- Size of the file when it opens: the header and one block of `byteCount`
bytes for each turn of the loop. -/
theorem SaveVertexMap_size (mat : Mat) :
    (SaveVertexMap mat true).bytes.length =
      12 + (mat.rows % 4294967296).toNat * byteCount mat.channels mat.cols := by
  rw [SaveVertexMap_open]
  have hrow : ∀ r, (bytesAt (mat.ptr r) (byteCount mat.channels mat.cols)).length
      = byteCount mat.channels mat.cols := by
    intro r
    simp [bytesAt]
  rw [List.length_append,
    length_flatMap_const _ (fun r => bytesAt (mat.ptr r) (byteCount mat.channels mat.cols))
      _ hrow, List.length_range]
  simp [int32Bytes, word32Bytes]

/-- C5, as stated, fails when the `int` product `channels * cols` overflows:
for the 1 x 8388608 matrix with 512 channels that product is `2^32`, it wraps
to 0, every `write` of the loop writes 0 bytes and the file holds the 12 bytes
of the header, not `12 + 4*rows*cols*channels` bytes. -/
theorem C5_size_differs_on_wide_matrix :
    0 ≤ wideMat.rows ∧ 0 ≤ wideMat.cols ∧
      (SaveVertexMap wideMat true).bytes.length = 12 ∧
      ((SaveVertexMap wideMat true).bytes.length : Int) ≠
        12 + 4 * wideMat.rows * wideMat.cols * wideMat.channels := by
  have hb : byteCount wideMat.channels wideMat.cols = 0 := by decide
  have hl : (SaveVertexMap wideMat true).bytes.length = 12 := by
    rw [SaveVertexMap_size, hb, Nat.mul_zero]
  refine ⟨by decide, by decide, hl, ?_⟩
  rw [hl]
  decide

/-- C5, amended. For a float matrix with `0 <= rows <= 2^31 - 1`, `cols >= 0`
and `channels * cols <= 2^31 - 1`: when the file opens, its content is the
three 32-bit integers `rows`, `cols`, `channels` followed by the scanlines of
the rows in increasing order, each being the `channels * cols` floats of the
row; its size is `12 + 4*rows*cols*channels` bytes; when the file cannot be
opened nothing is written. -/
theorem C5_SaveVertexMap_layout (mat : Mat) (hr : 0 ≤ mat.rows)
    (hr1 : mat.rows ≤ 2147483647) (hc : 0 ≤ mat.cols)
    (hcc1 : mat.channels * mat.cols ≤ 2147483647) :
    (SaveVertexMap mat true).bytes =
        int32Bytes mat.rows ++ int32Bytes mat.cols ++ int32Bytes mat.channels ++
          scanlines mat ∧
      ((SaveVertexMap mat true).bytes.length : Int) =
        12 + 4 * mat.rows * mat.cols * mat.channels ∧
      (SaveVertexMap mat false).bytes = [] := by
  have hch : 0 ≤ mat.channels := Int.ofNat_nonneg _
  have hcc : 0 ≤ mat.channels * mat.cols := mul_nonneg hch hc
  have hrows : (mat.rows % 4294967296).toNat = mat.rows.toNat := by omega
  have hn : byteCount mat.channels mat.cols = 4 * (mat.channels * mat.cols).toNat := by
    unfold byteCount toSizeT
    rw [wrapInt32_of_range _ (by omega) hcc1]
    omega
  have hlay : (SaveVertexMap mat true).bytes =
      int32Bytes mat.rows ++ int32Bytes mat.cols ++ int32Bytes mat.channels ++
        scanlines mat := by
    rw [SaveVertexMap_open, hn, hrows]
    unfold scanlines
    simp only [bytesAt_floats]
  refine ⟨hlay, ?_, rfl⟩
  rw [SaveVertexMap_size, hn, hrows]
  push_cast
  rw [Int.toNat_of_nonneg hr, Int.toNat_of_nonneg hcc]
  ring

/-- Witness of the amended C5 on a 2 x 1 matrix with 3 channels. -/
theorem C5_SaveVertexMap_layout_witness :
    0 ≤ exampleMat.rows ∧ exampleMat.rows ≤ 2147483647 ∧ 0 ≤ exampleMat.cols ∧
      exampleMat.channels * exampleMat.cols ≤ 2147483647 ∧
      ((SaveVertexMap exampleMat true).bytes.length : Int) =
        12 + 4 * exampleMat.rows * exampleMat.cols * exampleMat.channels :=
  ⟨by decide, by decide, by decide, by decide,
    (C5_SaveVertexMap_layout exampleMat (by decide) (by decide) (by decide)
      (by decide)).2.1⟩

/-! ## `getFileName` -/

/-- Position of a separator that is followed by no other separator. -/
theorem find_last_of_last (dir name : List Char) (c : Char) (h : c ∉ name) :
    find_last_of (dir ++ c :: name) c = dir.length := by
  have hr : c ∉ name.reverse := by simpa using h
  unfold find_last_of
  simp only [List.reverse_append, List.reverse_cons, List.append_assoc, List.singleton_append,
    List.indexOf_append_of_not_mem hr, List.indexOf_cons_self, List.length_reverse,
    List.length_append, List.length_cons]
  rw [if_pos (by omega)]
  omega

/-- No occurrence: `npos`. -/
theorem find_last_of_absent (s : List Char) (c : Char) (h : c ∉ s) :
    find_last_of s c = npos := by
  have hr : c ∉ s.reverse := by simpa using h
  unfold find_last_of
  simp [List.indexOf_of_not_mem hr]

/-- The first `substr` of `getFileName` yields the component after the last '/'. -/
theorem filename_after_slash (dir name : List Char) (h : '/' ∉ name)
    (hlen : (dir ++ '/' :: name).length < 18446744073709551616) :
    substr (dir ++ '/' :: name)
      ((find_last_of (dir ++ '/' :: name) '/' + 1) % 18446744073709551616) npos
      = some name := by
  simp only [List.length_append, List.length_cons] at hlen
  rw [find_last_of_last dir name '/' h, Nat.mod_eq_of_lt (by omega)]
  unfold substr
  rw [if_neg (by simp)]
  have : (dir ++ '/' :: name).drop (dir.length + 1) = name := by
    rw [List.drop_append_eq_append_drop]
    simp
  rw [this, List.take_of_length_le (by unfold npos; omega)]

/-- With `with_ext = true` the component after the last '/' is returned. -/
theorem getFileName_with_ext (dir name : List Char) (h : '/' ∉ name)
    (hlen : (dir ++ '/' :: name).length < 18446744073709551616) :
    getFileName (String.mk (dir ++ '/' :: name)) true = some (String.mk name) := by
  unfold getFileName
  simp only [filename_after_slash dir name h hlen]
  rfl

/-- With `with_ext = true` a path without '/' is returned whole. -/
theorem getFileName_with_ext_no_slash (name : List Char) (h : '/' ∉ name)
    (hlen : name.length < 18446744073709551616) :
    getFileName (String.mk name) true = some (String.mk name) := by
  unfold getFileName
  simp only [find_last_of_absent name '/' h]
  have : substr name ((npos + 1) % 18446744073709551616) npos = some name := by
    unfold substr npos
    simp
    omega
  simp only [this]
  rfl

/-- With `with_ext = false` an extension of exactly three characters is removed
together with its dot. -/
theorem getFileName_three_char_ext (dir stem ext : List Char) (hs : '/' ∉ stem)
    (he : '/' ∉ ext) (h3 : ext.length = 3)
    (hlen : (dir ++ '/' :: (stem ++ '.' :: ext)).length < 18446744073709551616) :
    getFileName (String.mk (dir ++ '/' :: (stem ++ '.' :: ext))) false
      = some (String.mk stem) := by
  have hn : '/' ∉ stem ++ '.' :: ext := by
    simp only [List.mem_append, List.mem_cons, not_or]
    exact ⟨hs, by decide, he⟩
  unfold getFileName
  simp only [filename_after_slash dir _ hn hlen]
  simp only [List.length_append, List.length_cons] at hlen
  have hk : ((stem ++ '.' :: ext).length + 18446744073709551616 - 4) % 18446744073709551616
      = stem.length := by
    simp only [List.length_append, List.length_cons, h3]
    omega
  rw [hk]
  simp [substr]

/-- C7. `getFileName(path, false)` drops the last four characters whatever the
extension is: "/home/wsy/temp.txt" gives "temp", but "/home/wsy/temp.jpeg"
gives "temp." and "/home/wsy/main.c" gives "ma"; a component shorter than four
characters is returned whole.  With `with_ext = true` the component after the
last '/' is returned. -/
theorem C7_getFileName_drops_four_chars :
    getFileName "/home/wsy/temp.txt" false = some "temp" ∧
      getFileName "/home/wsy/temp.jpeg" false = some "temp." ∧
      getFileName "/home/wsy/main.c" false = some "ma" ∧
      getFileName "/home/wsy/a.h" false = some "a.h" ∧
      getFileName "/home/wsy/temp.jpeg" true = some "temp.jpeg" ∧
      getFileName "temp.jpeg" true = some "temp.jpeg" := by
  decide

end Utils

end Wm3D
